import Mathlib

/-!
Shallow embedding of the comlin line-editing library (src/comlin.c) and proofs
about it.  Strings are modelled as `List Char` (C strings are NUL-free byte
sequences), machine-level buffers as lists with an explicit allocated size,
and terminal I/O is abstracted away: reads come from an explicit input list,
writes that do not affect the session state are dropped, and the number of
BEL (bell) bytes emitted is tracked explicitly where a claim needs it.
Allocation is assumed to succeed (`malloc`/`realloc` failure branches are
unreachable in the model).
-/

namespace Comlin

/-- A C string / byte sequence. -/
abbrev Str := List Char

/-- The NUL terminator byte. -/
def nul : Char := Char.ofNat 0

/-- `ComlinStatus` from comlin.h (the generation used by src/comlin.c). -/
inductive ComlinStatus where
  | COMLIN_SUCCESS
  | COMLIN_READING
  | COMLIN_END
  | COMLIN_INTERRUPTED
  | COMLIN_NO_MEMORY
  | COMLIN_NO_FILE
  | COMLIN_BAD_READ
  | COMLIN_BAD_WRITE
  | COMLIN_BAD_TERMINAL
deriving DecidableEq, Repr

open ComlinStatus

/-- `struct abuf`: an allocated byte buffer.  `data` models the whole
allocation (so `data.length = size` in maintained states); `length` is the
content length, with the terminator expected at `data[length]`. -/
structure Abuf where
  data : List Char
  length : Nat
  size : Nat
deriving DecidableEq, Repr

/-- `memcpy(l + off, s, s.length)`: overwrite `s.length` bytes of `l` at
offset `off`. -/
def listWrite (l : List Char) (off : Nat) (s : List Char) : List Char :=
  l.take off ++ s ++ l.drop (off + s.length)

/-- `memmove(l + dst, l + src, count)` (copy as if through a temporary). -/
def listMemmove (l : List Char) (dst src count : Nat) : List Char :=
  listWrite l dst ((l.drop src).take count)

/-- `ab_append`: grow the allocation to `length + len + 1` bytes if needed
(realloc; fresh bytes are modelled as NUL, they are overwritten before being
readable), copy `s` at offset `length`, and write the terminator after it. -/
def ab_append (ab : Abuf) (s : List Char) : Abuf :=
  let new_length := ab.length + s.length
  let needed_size := new_length + 1
  let grown : Abuf :=
    if needed_size > ab.size then
      { ab with data := ab.data ++ List.replicate (needed_size - ab.size) nul
                size := needed_size }
    else ab
  let d1 := listWrite grown.data ab.length s
  { data := d1.set new_length nul, length := new_length, size := grown.size }

/-- `struct ComlinStateImpl`.  Terminal descriptors and `struct termios` are
not represented; `cols` and `dumb` are the values the constructor would have
derived from the terminal.  The completion callback is modelled as a pure
function from the buffer contents to the candidate list. -/
structure ComlinState where
  completion_callback : Option (Str → List Str)
  cols : Nat
  maskmode : Bool
  mlmode : Bool
  dumb : Bool
  history_max_len : Nat
  history : Option (List Str)
  prompt : Str
  plen : Nat
  buf : Abuf
  pos : Nat
  history_index : Nat
  in_completion : Bool
  completion_idx : Nat
  oldpos : Nat
  oldrows : Nat

/-- The live history entries (`history[0 .. history_len)`); `none` is the
NULL table before the first `comlin_history_add`. -/
def histList (st : ComlinState) : List Str := st.history.getD []

/-- `history_len` (kept equal to the number of live entries). -/
def histLen (st : ComlinState) : Nat := (histList st).length

/-- Read `data` as a C string (up to the first NUL), as `strdup`/`strlen` on
`buf.data` do. -/
def cstr (data : List Char) : Str := data.takeWhile (· ≠ nul)

/-- `comlin_edit_insert`: insert `c` at the cursor.  The trivial-echo write
and the refresh only touch the terminal, not the session state. -/
def comlin_edit_insert (l : ComlinState) (c : Char) : ComlinStatus × ComlinState :=
  if l.buf.length = l.pos then
    let buf := ab_append l.buf [c]
    (COMLIN_READING, { l with buf := buf, pos := l.pos + 1 })
  else
    let buf := ab_append l.buf [' ']
    let d := listMemmove buf.data (l.pos + 1) l.pos (buf.length - l.pos)
    (COMLIN_READING,
     { l with buf := { buf with data := d.set l.pos c }, pos := l.pos + 1 })

/-- `comlin_edit_backspace`. -/
def comlin_edit_backspace (l : ComlinState) : ComlinState :=
  if l.pos ≠ 0 ∧ l.buf.length ≠ 0 then
    let d := listMemmove l.buf.data (l.pos - 1) l.pos (l.buf.length - l.pos)
    let newlen := l.buf.length - 1
    { l with buf := { l.buf with data := d.set newlen nul, length := newlen }
             pos := l.pos - 1 }
  else l

/-- `comlin_edit_delete` (the Delete key: remove the char under the cursor). -/
def comlin_edit_delete (l : ComlinState) : ComlinState :=
  if l.buf.length ≠ 0 ∧ l.pos < l.buf.length then
    let d := listMemmove l.buf.data l.pos (l.pos + 1) (l.buf.length - l.pos - 1)
    let newlen := l.buf.length - 1
    { l with buf := { l.buf with data := d.set newlen nul, length := newlen } }
  else l

/-- `comlin_edit_move_left`. -/
def comlin_edit_move_left (l : ComlinState) : ComlinState :=
  if l.pos > 0 then { l with pos := l.pos - 1 } else l

/-- `comlin_edit_move_right`. -/
def comlin_edit_move_right (l : ComlinState) : ComlinState :=
  if l.pos ≠ l.buf.length then { l with pos := l.pos + 1 } else l

/-- `comlin_edit_move_home`. -/
def comlin_edit_move_home (l : ComlinState) : ComlinState :=
  if l.pos ≠ 0 then { l with pos := 0 } else l

/-- `comlin_edit_move_end`. -/
def comlin_edit_move_end (l : ComlinState) : ComlinState :=
  if l.pos ≠ l.buf.length then { l with pos := l.buf.length } else l

/-- `comlin_new_state`.  `cols` and `dumb` stand for what `get_columns` and
`is_unsupported_term` would report for the terminal; the buffer is a
zero-filled `calloc(1, cols)` allocation. -/
def comlin_new_state (cols : Nat) (dumb : Bool) (prompt : Str) : ComlinState :=
  { completion_callback := none
    cols := cols
    maskmode := false
    mlmode := false
    dumb := dumb
    history_max_len := 100
    history := none
    prompt := prompt
    plen := prompt.length
    buf := { data := List.replicate cols nul, length := 0, size := cols }
    pos := 0
    history_index := 0
    in_completion := false
    completion_idx := 0
    oldpos := 0
    oldrows := 0 }

/-- `comlin_history_add`.  Returns the C `int` result (1 = added, 0 = no-op).
The table is allocated on first use; `strdup` failure is unreachable in the
model. -/
def comlin_history_add (st : ComlinState) (line : Str) : Nat × ComlinState :=
  if st.history_max_len = 0 then (0, st)
  else
    let hist := st.history.getD []
    let st' : ComlinState := { st with history := some hist }
    if hist.getLast? = some line then (0, st')
    else
      let hist' := if hist.length = st.history_max_len then hist.drop 1 else hist
      (1, { st' with history := some (hist' ++ [line]) })

/-- `comlin_history_set_max_len`.  Returns the C `int` result (1 = ok,
0 = rejected).  When the table exists, the newest `min len history_len`
entries are copied to the new table, the oldest excess entries freed. -/
def comlin_history_set_max_len (st : ComlinState) (len : Nat) : Nat × ComlinState :=
  if len < 1 then (0, st)
  else
    let st' : ComlinState :=
      match st.history with
      | none => st
      | some h =>
        let tocopy := min h.length len
        { st with history := some (h.drop (h.length - tocopy)) }
    (1, { st' with history_max_len := len })

/-- `comlin_history_save`: the byte content written to the file — each entry
followed by a newline, in order.  (File handling itself is outside the
model.) -/
def comlin_history_save (st : ComlinState) : List Char :=
  ((histList st).map (fun e => e ++ ['\n'])).flatten

/-- One `fgets(buf, n+1, fp)` call on remaining content `l`: read at most `n`
characters, stopping after the first newline; returns the chunk and the
remaining content. -/
def fgetsChunk : Nat → List Char → List Char × List Char
  | _, [] => ([], [])
  | 0, l => ([], l)
  | n + 1, c :: rest =>
    if c = '\n' then ([c], rest)
    else
      let (line, r) := fgetsChunk n rest
      (c :: line, r)

/-- The line-ending strip in `comlin_history_load`: truncate at the first
`'\r'` if any, otherwise at the first `'\n'`. -/
def stripEol (l : List Char) : List Char :=
  if '\r' ∈ l then l.takeWhile (· ≠ '\r')
  else if '\n' ∈ l then l.takeWhile (· ≠ '\n')
  else l

/-- The `fgets` loop of `comlin_history_load`, with explicit fuel (each
iteration consumes at least one byte, so `content.length` fuel suffices). -/
def historyLoadAux : Nat → ComlinState → List Char → ComlinState
  | _, st, [] => st
  | 0, st, _ => st
  | fuel + 1, st, content =>
    let (chunk, rest) := fgetsChunk 4095 content
    historyLoadAux fuel (comlin_history_add st (stripEol chunk)).2 rest

/-- `comlin_history_load` of the given file content (fgets buffer size
`COMLIN_MAX_LINE` = 4096, so at most 4095 characters per read). -/
def comlin_history_load (st : ComlinState) (content : List Char) : ComlinState :=
  historyLoadAux content.length st content

/-- C1 (code bug).  Inserting in the middle of the line destroys the NUL
terminator: from buffer "ab" with the cursor at 1, inserting 'X' leaves
`data[buf.length] = ' '` (the padding byte appended by `ab_append` is shifted
over the terminator because the `memmove` count uses the already-incremented
length), while the cursor bound `pos ≤ length` still holds. -/
theorem c1_insert_middle_breaks_terminator :
    (comlin_edit_insert (comlin_edit_move_left
        (comlin_edit_insert
          (comlin_edit_insert (comlin_new_state 80 false []) 'a').2 'b').2)
      'X').2.buf.length = 3 ∧
    (comlin_edit_insert (comlin_edit_move_left
        (comlin_edit_insert
          (comlin_edit_insert (comlin_new_state 80 false []) 'a').2 'b').2)
      'X').2.pos = 2 ∧
    (comlin_edit_insert (comlin_edit_move_left
        (comlin_edit_insert
          (comlin_edit_insert (comlin_new_state 80 false []) 'a').2 'b').2)
      'X').2.buf.data.take 4 = ['a', 'X', 'b', ' '] ∧
    (comlin_edit_insert (comlin_edit_move_left
        (comlin_edit_insert
          (comlin_edit_insert (comlin_new_state 80 false []) 'a').2 'b').2)
      'X').2.buf.data.getD 3 nul ≠ nul := by
  decide

/-- Writing back the value a field already has is the identity (structure eta). -/
theorem history_set_eta (st : ComlinState) (l : List Str) (h : st.history = some l) :
    ({ st with history := some l } : ComlinState) = st := by
  rw [← h]

/-- A fresh session (as built by `comlin_new_state`) with the given history
capacity. -/
def freshSession (maxLen : Nat) : ComlinState :=
  { comlin_new_state 80 false [] with history_max_len := maxLen }

/-- C4.  `comlin_history_add` is a no-op when `history_max_len` is zero or
when the line equals the newest stored entry; otherwise it appends the line,
evicting the oldest entry first when the history is at capacity.  With
capacity 3, adding "a","b","c","d" to an empty history leaves exactly
["b","c","d"]. -/
theorem c4_history_add (st : ComlinState) (line : Str) :
    (st.history_max_len = 0 → (comlin_history_add st line).2 = st) ∧
    ((histList st).getLast? = some line → (comlin_history_add st line).2 = st) ∧
    (st.history_max_len ≠ 0 → (histList st).getLast? ≠ some line →
      histList (comlin_history_add st line).2 =
        (if histLen st = st.history_max_len
         then (histList st).drop 1 else histList st) ++ [line] ∧
      (comlin_history_add st line).2.history_max_len = st.history_max_len) ∧
    histList (comlin_history_add (comlin_history_add (comlin_history_add
      (comlin_history_add (freshSession 3) ['a']).2 ['b']).2 ['c']).2 ['d']).2 =
      [['b'], ['c'], ['d']] := by
  refine ⟨?_, ?_, ?_, by decide⟩
  · intro h0
    simp [comlin_history_add, h0]
  · intro hdup
    rcases hst : st.history with _ | h
    · simp [histList, hst] at hdup
    · have hh : histList st = h := by simp [histList, hst]
      rw [hh] at hdup
      by_cases hm : st.history_max_len = 0
      · simp [comlin_history_add, hm]
      · simp [comlin_history_add, hm, hst, hdup, history_set_eta st h hst]
  · intro h0 hdup
    simp only [comlin_history_add, h0, if_false, histList, histLen] at hdup ⊢
    rw [if_neg hdup]
    simp [histList, histLen]

/-- C6.  Shrinking the capacity below the current count keeps exactly the
`k` most recent entries (the oldest are dropped, order preserved) and sets
`history_max_len` to `k`. -/
theorem c6_set_max_len_shrink (st : ComlinState) (k : Nat)
    (hk : 0 < k) (hlt : k < histLen st) :
    (comlin_history_set_max_len st k).1 = 1 ∧
    histList (comlin_history_set_max_len st k).2 =
      (histList st).drop (histLen st - k) ∧
    (histList (comlin_history_set_max_len st k).2).length = k ∧
    (comlin_history_set_max_len st k).2.history_max_len = k := by
  rcases hst : st.history with _ | h
  · simp [histLen, histList, hst] at hlt
  · have hlen : histLen st = h.length := by simp [histLen, histList, hst]
    rw [hlen] at hlt
    have hmin : min h.length k = k := Nat.min_eq_right (Nat.le_of_lt hlt)
    constructor
    · simp [comlin_history_set_max_len, Nat.not_lt.mpr (Nat.one_le_iff_ne_zero.mpr (Nat.pos_iff_ne_zero.mp hk))]
    refine ⟨?_, ?_, ?_⟩
    · simp [comlin_history_set_max_len, hst, hmin, Nat.not_lt.mpr hk, histList, histLen]
    · simp only [comlin_history_set_max_len, hst, hmin, Nat.not_lt.mpr hk, if_false,
        histList, Option.getD_some, List.length_drop]
      omega
    · simp [comlin_history_set_max_len, hst, Nat.not_lt.mpr hk]

/-- C6 witness: a concrete three-entry history shrunk to capacity 2. -/
theorem c6_set_max_len_shrink_witness :
    let st : ComlinState :=
      { freshSession 100 with history := some [['a'], ['b'], ['c']] }
    0 < 2 ∧ 2 < histLen st ∧
    ((comlin_history_set_max_len st 2).1 = 1 ∧
     histList (comlin_history_set_max_len st 2).2 =
       (histList st).drop (histLen st - 2) ∧
     (histList (comlin_history_set_max_len st 2).2).length = 2 ∧
     (comlin_history_set_max_len st 2).2.history_max_len = 2) :=
  ⟨by decide, by decide, c6_set_max_len_shrink _ 2 (by decide) (by decide)⟩

/-- C10.  `comlin_history_set_max_len 0` returns 0 and leaves the whole
session (entries, count, capacity, everything) unchanged. -/
theorem c10_set_max_len_zero (st : ComlinState) :
    comlin_history_set_max_len st 0 = (0, st) := by
  simp [comlin_history_set_max_len]

/-- One `fgets` call on a newline-terminated line that fits in the buffer
reads exactly that line. -/
theorem fgetsChunk_line (e : Str) (rest : List Char) :
    ∀ n : Nat, '\n' ∉ e → e.length < n →
      fgetsChunk n (e ++ '\n' :: rest) = (e ++ ['\n'], rest) := by
  induction e with
  | nil =>
    intro n _ hn
    match n, hn with
    | n + 1, _ => simp [fgetsChunk]
  | cons a e' ih =>
    intro n hmem hn
    match n, hn with
    | n + 1, hn =>
      have ha : a ≠ '\n' := fun h => hmem (by simp [h])
      have he' : '\n' ∉ e' := fun h => hmem (by simp [h])
      simp [fgetsChunk, ha, ih n he' (by simpa using Nat.lt_of_succ_lt_succ hn)]

/-- `takeWhile (· ≠ c)` of a list ending in its first `c` drops exactly that
final character. -/
theorem takeWhile_ne_append (e : List Char) (c : Char) (h : c ∉ e) :
    (e ++ [c]).takeWhile (· ≠ c) = e := by
  have hall : ∀ a ∈ e, (fun x => decide (x ≠ c)) a = true := by
    intro a ha
    simp only [decide_eq_true_eq]
    exact fun hq => h (hq ▸ ha)
  rw [List.takeWhile_append_of_pos hall]
  simp [List.takeWhile_cons]

/-- Stripping the line ending from a clean newline-terminated line yields the
line itself. -/
theorem stripEol_line (e : Str) (hn : '\n' ∉ e) (hr : '\r' ∉ e) :
    stripEol (e ++ ['\n']) = e := by
  have hrmem : ¬ ('\r' ∈ e ++ ['\n']) := by
    simp only [List.mem_append, List.mem_singleton]
    rintro (h | h)
    · exact hr h
    · exact absurd h (by decide)
  have hnmem : '\n' ∈ e ++ ['\n'] := by simp
  unfold stripEol
  rw [if_neg hrmem, if_pos hnmem]
  exact takeWhile_ne_append e '\n' hn

/-- The saved content of `k` entries has at least `k` bytes (one newline per
entry). -/
theorem length_le_saveContent (es : List Str) :
    es.length ≤ ((es.map fun e => e ++ ['\n']).flatten).length := by
  induction es with
  | nil => simp
  | cons e tl ih => simp only [List.map_cons, List.flatten_cons, List.length_append,
      List.length_cons]; omega

/-- Unfolding one iteration of the load loop on nonempty content. -/
theorem historyLoadAux_step (f : Nat) (st : ComlinState) (content : List Char)
    (h : content ≠ []) :
    historyLoadAux (f + 1) st content =
      historyLoadAux f (comlin_history_add st (stripEol (fgetsChunk 4095 content).1)).2
        (fgetsChunk 4095 content).2 := by
  rcases content with _ | ⟨c, r⟩
  · exact absurd rfl h
  · rfl

/-- Loading the saved content of clean, pairwise-adjacent-distinct entries
onto a history that still has room for all of them appends exactly those
entries. -/
theorem historyLoadAux_saved (es : List Str) :
    ∀ (f : Nat) (st : ComlinState) (acc : List Str),
      st.history = some acc →
      acc.length + es.length ≤ st.history_max_len →
      List.Chain' (· ≠ ·) (acc ++ es) →
      (∀ e ∈ es, '\n' ∉ e ∧ '\r' ∉ e ∧ e.length ≤ 4094) →
      es.length ≤ f →
      historyLoadAux f st ((es.map fun e => e ++ ['\n']).flatten) =
        { st with history := some (acc ++ es) } := by
  induction es with
  | nil =>
    intro f st acc hacc _ _ _ _
    have : historyLoadAux f st [] = st := by cases f <;> rfl
    simp only [List.map_nil, List.flatten_nil, this, List.append_nil]
    exact (history_set_eta st acc hacc).symm
  | cons e tl ih =>
    intro f st acc hacc hcap hchain hclean hf
    obtain ⟨f', rfl⟩ : ∃ f', f = f' + 1 := by
      cases f
      · exact absurd hf (by simp)
      · exact ⟨_, rfl⟩
    obtain ⟨hen, her, hel⟩ := hclean e (by simp)
    have hcontent : (((e :: tl).map fun x => x ++ ['\n']).flatten) =
        e ++ '\n' :: ((tl.map fun x => x ++ ['\n']).flatten) := by
      simp [List.append_assoc]
    rw [hcontent, historyLoadAux_step _ _ _ (by simp),
        fgetsChunk_line e _ 4095 hen (by omega)]
    simp only []
    rw [stripEol_line e hen her]
    -- the `add` call appends `e` without eviction or duplicate suppression
    simp only [List.length_cons] at hcap
    have hmax : st.history_max_len ≠ 0 := by omega
    have hdup : acc.getLast? ≠ some e := by
      have := (List.chain'_append.mp hchain).2.2
      intro hcontr
      exact this e hcontr e (by simp) rfl
    have hfull : acc.length ≠ st.history_max_len := by omega
    have hadd : (comlin_history_add st e).2 =
        { st with history := some (acc ++ [e]) } := by
      simp [comlin_history_add, hmax, hacc, hdup, hfull]
    have hcap' : (acc ++ [e]).length + tl.length ≤ st.history_max_len := by
      simp only [List.length_append, List.length_singleton]
      omega
    have hchain' : List.Chain' (· ≠ ·) ((acc ++ [e]) ++ tl) := by
      rw [List.append_assoc]; simpa using hchain
    have hf' : tl.length ≤ f' := by
      simp only [List.length_cons] at hf; omega
    rw [hadd,
        ih f' { st with history := some (acc ++ [e]) } (acc ++ [e]) rfl
          hcap' hchain' (fun x hx => hclean x (by simp [hx])) hf']
    simp

/-- C3 (amended).  Saving a history whose entries are free of `'\n'` and
`'\r'`, at most 4094 bytes long, and without adjacent duplicates, then
loading the file into a fresh session whose capacity can hold them, restores
exactly the original ordered entry list. -/
theorem c3_save_load_roundtrip (st fresh : ComlinState)
    (hfh : fresh.history = none)
    (hlen : histLen st ≤ fresh.history_max_len)
    (hclean : ∀ e ∈ histList st, '\n' ∉ e ∧ '\r' ∉ e ∧ e.length ≤ 4094)
    (hchain : List.Chain' (· ≠ ·) (histList st)) :
    histList (comlin_history_load fresh (comlin_history_save st)) = histList st := by
  unfold comlin_history_load comlin_history_save
  rcases hes : histList st with _ | ⟨e, tl⟩
  · simp [historyLoadAux, histList, hfh]
  · rw [hes] at hclean hchain
    have hlen' : tl.length + 1 ≤ fresh.history_max_len := by
      rw [histLen, hes] at hlen; simpa using hlen
    obtain ⟨hen, her, hel⟩ := hclean e (by simp)
    have hcontent : (((e :: tl).map fun x => x ++ ['\n']).flatten) =
        e ++ '\n' :: ((tl.map fun x => x ++ ['\n']).flatten) := by
      simp [List.append_assoc]
    rw [hcontent]
    have hne : (e ++ '\n' :: ((tl.map fun x => x ++ ['\n']).flatten)) ≠ [] := by simp
    obtain ⟨f', hf'⟩ := Nat.exists_eq_succ_of_ne_zero
      (show (e ++ '\n' :: ((tl.map fun x => x ++ ['\n']).flatten)).length ≠ 0 by simp)
    rw [hf', historyLoadAux_step _ _ _ hne,
        fgetsChunk_line e _ 4095 hen (by omega)]
    simp only []
    rw [stripEol_line e hen her]
    have hadd : (comlin_history_add fresh e).2 =
        { fresh with history := some [e] } := by
      have hmax : fresh.history_max_len ≠ 0 := by omega
      simp [comlin_history_add, hmax, hfh]
    have hflen : tl.length ≤ f' := by
      have h1 := length_le_saveContent tl
      have h2 : (e ++ '\n' :: ((tl.map fun x => x ++ ['\n']).flatten)).length =
          e.length + 1 + ((tl.map fun x => x ++ ['\n']).flatten).length := by
        simp; omega
      omega
    have hcap0 : ([e] : List Str).length + tl.length ≤ fresh.history_max_len := by
      simp only [List.length_singleton]; omega
    rw [hadd,
        historyLoadAux_saved tl f' { fresh with history := some [e] } [e] rfl
          hcap0 (by simpa using hchain)
          (fun x hx => hclean x (by simp [hx]))
          hflen]
    simp [histList]

/-! Key codes (`enum KEY_ACTION`). -/

def CTRL_A : Char := Char.ofNat 1
def CTRL_B : Char := Char.ofNat 2
def CTRL_C : Char := Char.ofNat 3
def CTRL_D : Char := Char.ofNat 4
def CTRL_E : Char := Char.ofNat 5
def CTRL_F : Char := Char.ofNat 6
def CTRL_H : Char := Char.ofNat 8
def TAB : Char := Char.ofNat 9
def CTRL_K : Char := Char.ofNat 11
def CTRL_L : Char := Char.ofNat 12
def ENTER : Char := Char.ofNat 13
def CTRL_N : Char := Char.ofNat 14
def CTRL_P : Char := Char.ofNat 16
def CTRL_T : Char := Char.ofNat 20
def CTRL_U : Char := Char.ofNat 21
def CTRL_W : Char := Char.ofNat 23
def ESC : Char := Char.ofNat 27
def BACKSPACE : Char := Char.ofNat 127

def COMLIN_HISTORY_NEXT : Nat := 0
def COMLIN_HISTORY_PREV : Nat := 1

/-- What the terminal shows after the final refresh in `complete_line` /
`refresh_line_with_completion`: the proposed candidate while one is selected,
otherwise the edited buffer. -/
def completionDisplay (st : ComlinState) (lc : List Str) : Str :=
  if st.in_completion ∧ st.completion_idx < lc.length then lc.getD st.completion_idx []
  else st.buf.data.take st.buf.length

/-- Result of `complete_line`: the returned character, the updated session,
the number of bells emitted, and the line shown on screen afterwards. -/
structure CompleteResult where
  c : Char
  st : ComlinState
  bells : Nat
  displayed : Str

/-- `complete_line`: invoked on Tab (or any key while a completion round is
active).  The callback is only consulted for a non-empty buffer. -/
def complete_line (ls : ComlinState) (keypressed : Char) : CompleteResult :=
  let cb := ls.completion_callback.getD fun _ => []
  let lc : List Str := if ls.buf.length ≠ 0 then cb (cstr ls.buf.data) else []
  if lc.length = 0 then
    -- nothing to complete: beep and leave completion mode (no refresh)
    { c := keypressed, st := { ls with in_completion := false }, bells := 1,
      displayed := ls.buf.data.take ls.buf.length }
  else if keypressed = TAB then
    let ls' :=
      if ls.in_completion then
        { ls with completion_idx := (ls.completion_idx + 1) % (lc.length + 1) }
      else { ls with in_completion := true, completion_idx := 0 }
    let bells :=
      if ls.in_completion ∧ ls'.completion_idx = lc.length then 1 else 0
    { c := Char.ofNat 0, st := ls', bells := bells,
      displayed := completionDisplay ls' lc }
  else if keypressed = ESC then
    let ls' := { ls with in_completion := false }
    { c := Char.ofNat 0, st := ls', bells := 0,
      displayed := completionDisplay ls' lc }
  else
    let ls' :=
      if ls.completion_idx < lc.length then
        let entry := lc.getD ls.completion_idx []
        { ls with pos := entry.length,
                  buf := ab_append { ls.buf with length := 0 } entry,
                  in_completion := false }
      else { ls with in_completion := false }
    { c := keypressed, st := ls', bells := 0,
      displayed := completionDisplay ls' lc }

/-- `comlin_edit_history_next`: snapshot the buffer into its history slot,
step the recall index in direction `dir`, and load the selected entry. -/
def comlin_edit_history_next (l : ComlinState) (dir : Nat) : ComlinState :=
  if histLen l > 1 then
    let hist := (histList l).set (histLen l - 1 - l.history_index) (cstr l.buf.data)
    let l := { l with history := some hist }
    if dir = COMLIN_HISTORY_NEXT ∧ l.history_index = 0 then l
    else
      let idx := if dir = COMLIN_HISTORY_NEXT then l.history_index - 1
                 else l.history_index + 1
      if idx ≥ histLen l then { l with history_index := histLen l - 1 }
      else
        let entry := hist.getD (histLen l - 1 - idx) []
        let buf := ab_append { l.buf with length := 0 } entry
        { l with history_index := idx, pos := entry.length,
                 buf := { buf with data := buf.data.set entry.length nul } }
  else l

/-- Scan backwards from an offset while the byte before it satisfies `p`
(the two `while` loops of `comlin_edit_delete_prev_word`). -/
def scanBackWhile (data : List Char) (p : Char → Bool) : Nat → Nat
  | 0 => 0
  | n + 1 => if p (data.getD n nul) then scanBackWhile data p n else n + 1

/-- `comlin_edit_delete_prev_word`. -/
def comlin_edit_delete_prev_word (l : ComlinState) : ComlinState :=
  let old_pos := l.pos
  let p1 := scanBackWhile l.buf.data (fun c => c = ' ') l.pos
  let p2 := scanBackWhile l.buf.data (fun c => ¬c = ' ') p1
  let diff := old_pos - p2
  let d := listMemmove l.buf.data p2 old_pos (l.buf.length + 1 - old_pos)
  { l with pos := p2, buf := { l.buf with data := d, length := l.buf.length - diff } }

/-- Result of one `comlin_edit_feed` call: status, updated session, the
input bytes not yet consumed, and the number of bells emitted. -/
structure FeedResult where
  status : ComlinStatus
  st : ComlinState
  rest : List Char
  bells : Nat

/-- The main `switch (c)` dispatch of `comlin_edit_feed` (reached after the
completion branch). -/
def feedDispatch (l : ComlinState) (c : Char) (rest : List Char) : FeedResult :=
  if c = '\n' ∨ c = ENTER then
    let l := { l with history := some (histList l).dropLast }
    let l := if l.mlmode then comlin_edit_move_end l else l
    ⟨COMLIN_SUCCESS,
     { l with buf := { l.buf with data := l.buf.data.set l.buf.length nul } },
     rest, 0⟩
  else if c = CTRL_C then ⟨COMLIN_INTERRUPTED, l, rest, 0⟩
  else if c = BACKSPACE ∨ c = CTRL_H then
    ⟨COMLIN_READING, comlin_edit_backspace l, rest, 0⟩
  else if c = CTRL_D then
    if l.buf.length > 0 then ⟨COMLIN_READING, comlin_edit_delete l, rest, 0⟩
    else ⟨COMLIN_END, { l with history := some (histList l).dropLast }, rest, 0⟩
  else if c = CTRL_T then
    if 0 < l.pos ∧ l.pos < l.buf.length then
      let a := l.buf.data.getD (l.pos - 1) nul
      let b := l.buf.data.getD l.pos nul
      let d := (l.buf.data.set (l.pos - 1) b).set l.pos a
      let pos' := if l.pos ≠ l.buf.length - 1 then l.pos + 1 else l.pos
      ⟨COMLIN_READING, { l with buf := { l.buf with data := d }, pos := pos' }, rest, 0⟩
    else ⟨COMLIN_READING, l, rest, 0⟩
  else if c = CTRL_B then ⟨COMLIN_READING, comlin_edit_move_left l, rest, 0⟩
  else if c = CTRL_F then ⟨COMLIN_READING, comlin_edit_move_right l, rest, 0⟩
  else if c = CTRL_P then
    ⟨COMLIN_READING, comlin_edit_history_next l COMLIN_HISTORY_PREV, rest, 0⟩
  else if c = CTRL_N then
    ⟨COMLIN_READING, comlin_edit_history_next l COMLIN_HISTORY_NEXT, rest, 0⟩
  else if c = ESC then
    match rest with
    | s0 :: s1 :: rest2 =>
      if s0 = '[' then
        if '0' ≤ s1 ∧ s1 ≤ '9' then
          match rest2 with
          | s2 :: rest3 =>
            if s2 = '~' ∧ s1 = '3' then ⟨COMLIN_READING, comlin_edit_delete l, rest3, 0⟩
            else ⟨COMLIN_READING, l, rest3, 0⟩
          | [] => ⟨COMLIN_READING, l, [], 0⟩
        else
          ⟨COMLIN_READING,
           (if s1 = 'A' then comlin_edit_history_next l COMLIN_HISTORY_PREV
            else if s1 = 'B' then comlin_edit_history_next l COMLIN_HISTORY_NEXT
            else if s1 = 'C' then comlin_edit_move_right l
            else if s1 = 'D' then comlin_edit_move_left l
            else if s1 = 'H' then comlin_edit_move_home l
            else if s1 = 'F' then comlin_edit_move_end l
            else l), rest2, 0⟩
      else if s0 = 'O' then
        ⟨COMLIN_READING,
         (if s1 = 'H' then comlin_edit_move_home l
          else if s1 = 'F' then comlin_edit_move_end l
          else l), rest2, 0⟩
      else ⟨COMLIN_READING, l, rest2, 0⟩
    | _ => ⟨COMLIN_READING, l, [], 0⟩
  else if c = CTRL_U then
    ⟨COMLIN_READING,
     { l with pos := 0,
              buf := { l.buf with data := l.buf.data.set 0 nul, length := 0 } },
     rest, 0⟩
  else if c = CTRL_K then
    ⟨COMLIN_READING,
     { l with buf := { l.buf with data := l.buf.data.set l.pos nul, length := l.pos } },
     rest, 0⟩
  else if c = CTRL_A then ⟨COMLIN_READING, comlin_edit_move_home l, rest, 0⟩
  else if c = CTRL_E then ⟨COMLIN_READING, comlin_edit_move_end l, rest, 0⟩
  else if c = CTRL_L then ⟨COMLIN_READING, l, rest, 0⟩
  else if c = CTRL_W then ⟨COMLIN_READING, comlin_edit_delete_prev_word l, rest, 0⟩
  else
    let (s, l') := comlin_edit_insert l c
    ⟨s, l', rest, 0⟩

/-- `comlin_edit_feed`, reading from an explicit input byte list (an empty
list is a zero-length read, i.e. end of input).  The `c < 0` check on the
value returned by `complete_line` models `char` as signed. -/
def comlin_edit_feed (l : ComlinState) (input : List Char) : FeedResult :=
  match input with
  | [] => ⟨COMLIN_END, l, [], 0⟩
  | c :: rest =>
    if l.dumb then
      if c = '\n' ∨ c = ENTER then ⟨COMLIN_SUCCESS, l, rest, 0⟩
      else if c = CTRL_C then ⟨COMLIN_INTERRUPTED, l, rest, 0⟩
      else if c = CTRL_D then ⟨COMLIN_END, l, rest, 0⟩
      else ⟨COMLIN_READING, { l with buf := ab_append l.buf [c] }, rest, 0⟩
    else if (l.in_completion ∨ c = TAB) ∧ l.completion_callback.isSome then
      let r := complete_line l c
      if 128 ≤ r.c.toNat then ⟨COMLIN_BAD_READ, r.st, rest, r.bells⟩
      else if r.c = Char.ofNat 0 then ⟨COMLIN_READING, r.st, rest, r.bells⟩
      else
        let d := feedDispatch r.st r.c rest
        { d with bells := r.bells + d.bells }
    else feedDispatch l c rest

/-- `comlin_edit_start`: reset the line state, push the empty placeholder
history entry, write the prompt (raw-mode entry and the prompt write succeed
in the model). -/
def comlin_edit_start (l : ComlinState) : ComlinStatus × ComlinState :=
  let buf := { l.buf with data := l.buf.data.set 0 nul, length := 0 }
  let l := { l with buf := buf, pos := 0, oldpos := 0, oldrows := 0 }
  (COMLIN_SUCCESS, (comlin_history_add l []).2)

/-- `comlin_edit_stop`: leave raw mode and write a newline (both succeed in
the model; the session state is untouched). -/
def comlin_edit_stop (l : ComlinState) : ComlinStatus × ComlinState :=
  (COMLIN_SUCCESS, l)

/-- The `do { st0 = comlin_edit_feed(state); } while (st0 == COMLIN_READING)`
loop of `comlin_read_line`.  Fuel bounds the iteration count; every reading
step consumes at least one input byte, so `input.length` fuel is enough. -/
def feedWhile : Nat → ComlinState → List Char → FeedResult
  | 0, l, input => comlin_edit_feed l input
  | fuel + 1, l, input =>
    let r := comlin_edit_feed l input
    if r.status = COMLIN_READING then
      let r2 := feedWhile fuel r.st r.rest
      { r2 with bells := r.bells + r2.bells }
    else r

/-- `comlin_read_line`. -/
def comlin_read_line (state : ComlinState) (prompt : Str) (input : List Char) :
    ComlinStatus × ComlinState × List Char :=
  let state := { state with prompt := prompt, plen := prompt.length }
  let (st0, state) := comlin_edit_start state
  if st0 = COMLIN_SUCCESS then
    let r := feedWhile input.length state input
    let (st1, state') := comlin_edit_stop r.st
    (if r.status = COMLIN_SUCCESS then st1 else r.status, state', r.rest)
  else (st0, state, input)

/-- C3 counterexample.  The entry "a\rb" is newline-free, yet save followed
by load into a fresh session with the same capacity yields ["a"]: load
truncates each read line at the first carriage return. -/
theorem c3_carriage_return_not_roundtripped :
    let src := (comlin_history_add (freshSession 100) ['a', '\r', 'b']).2
    histList src = [['a', '\r', 'b']] ∧
    histList (comlin_history_load (freshSession 100) (comlin_history_save src)) =
      [['a']] ∧
    histList (comlin_history_load (freshSession 100) (comlin_history_save src)) ≠
      histList src := by
  decide

/-- History is untouched by cursor motion to the end of the line. -/
theorem histList_move_end (l : ComlinState) :
    histList (comlin_edit_move_end l) = histList l := by
  unfold comlin_edit_move_end
  split <;> rfl

/-- C2 (amended).  `comlin_edit_start` pushes an empty placeholder history
entry (provided the newest entry is not already empty and there is room, so
the push is a plain append).  A feed that returns success (Enter) or
end-of-input (Ctrl-D on the empty buffer) removes it, restoring the entry
list; a feed that returns interrupted (Ctrl-C) leaves the placeholder in
place. -/
theorem c2_placeholder_lifecycle (st : ComlinState) (rest : List Char)
    (hdumb : st.dumb = false) (hic : st.in_completion = false)
    (hmax : st.history_max_len ≠ 0)
    (hroom : histLen st < st.history_max_len)
    (hlast : (histList st).getLast? ≠ some []) :
    histList (comlin_edit_start st).2 = histList st ++ [[]] ∧
    ((comlin_edit_feed (comlin_edit_start st).2 (ENTER :: rest)).status =
        COMLIN_SUCCESS ∧
     histList (comlin_edit_feed (comlin_edit_start st).2 (ENTER :: rest)).st =
        histList st) ∧
    ((comlin_edit_feed (comlin_edit_start st).2 (CTRL_D :: rest)).status =
        COMLIN_END ∧
     histList (comlin_edit_feed (comlin_edit_start st).2 (CTRL_D :: rest)).st =
        histList st) ∧
    ((comlin_edit_feed (comlin_edit_start st).2 (CTRL_C :: rest)).status =
        COMLIN_INTERRUPTED ∧
     histList (comlin_edit_feed (comlin_edit_start st).2 (CTRL_C :: rest)).st =
        histList st ++ [[]]) := by
  have hroom' : (st.history.getD []).length ≠ st.history_max_len :=
    Nat.ne_of_lt hroom
  have hlast' : (st.history.getD []).getLast? ≠ some [] := hlast
  have hstart : (comlin_edit_start st).2 =
      { st with
        buf := { st.buf with data := st.buf.data.set 0 nul, length := 0 }
        pos := 0, oldpos := 0, oldrows := 0
        history := some (histList st ++ [[]]) } := by
    simp only [comlin_edit_start, comlin_history_add, hmax, if_false]
    rw [if_neg hlast', if_neg hroom']
    rfl
  rw [hstart]
  refine ⟨by simp [histList], ⟨?_, ?_⟩, ⟨?_, ?_⟩, ⟨?_, ?_⟩⟩
  · simp [comlin_edit_feed, hdumb, hic, feedDispatch, show ¬ENTER = TAB by decide]
  · simp only [comlin_edit_feed, hdumb, hic, Bool.false_eq_true, false_or,
      show ¬ENTER = TAB by decide,
      false_and, if_false, feedDispatch, show ¬ENTER = '\n' by decide,
      show (ENTER = ENTER) = True by simp, or_true, if_true]
    rcases hml : ({ st with
        buf := { st.buf with data := st.buf.data.set 0 nul, length := 0 }
        pos := 0, oldpos := 0, oldrows := 0
        history := some (histList st ++ [[]]) } : ComlinState).mlmode with _ | _ <;>
      simp [hml, histList, histList_move_end, comlin_edit_move_end]
  · simp [comlin_edit_feed, hdumb, hic, feedDispatch,
      show ¬CTRL_D = TAB by decide, show ¬CTRL_D = '\n' by decide,
      show ¬CTRL_D = ENTER by decide, show ¬CTRL_D = CTRL_C by decide,
      show ¬CTRL_D = BACKSPACE by decide, show ¬CTRL_D = CTRL_H by decide]
  · simp [comlin_edit_feed, hdumb, hic, feedDispatch, histList,
      show ¬CTRL_D = TAB by decide, show ¬CTRL_D = '\n' by decide,
      show ¬CTRL_D = ENTER by decide, show ¬CTRL_D = CTRL_C by decide,
      show ¬CTRL_D = BACKSPACE by decide, show ¬CTRL_D = CTRL_H by decide]
  · simp [comlin_edit_feed, hdumb, hic, feedDispatch,
      show ¬CTRL_C = TAB by decide, show ¬CTRL_C = '\n' by decide,
      show ¬CTRL_C = ENTER by decide]
  · simp [comlin_edit_feed, hdumb, hic, feedDispatch, histList,
      show ¬CTRL_C = TAB by decide, show ¬CTRL_C = '\n' by decide,
      show ¬CTRL_C = ENTER by decide]

/-- C2 witness: the amended lifecycle at a fresh 80-column session. -/
theorem c2_placeholder_lifecycle_witness :
    histList (comlin_edit_start (comlin_new_state 80 false [])).2 =
      histList (comlin_new_state 80 false []) ++ [[]] ∧
    (comlin_edit_feed (comlin_edit_start (comlin_new_state 80 false [])).2
        [ENTER]).status = COMLIN_SUCCESS ∧
    histList (comlin_edit_feed (comlin_edit_start (comlin_new_state 80 false [])).2
        [ENTER]).st = histList (comlin_new_state 80 false []) := by
  have h := c2_placeholder_lifecycle (comlin_new_state 80 false []) []
    rfl rfl (by decide) (by decide) (by decide)
  exact ⟨h.1, h.2.1.1, h.2.1.2⟩

/-- C2 counterexample.  After `comlin_edit_start` on a fresh session
(`history_len` 0, placeholder pushed), feeding Ctrl-C returns the
interrupted status but the placeholder entry is still present: `history_len`
is 1, not restored to 0 as the claim states. -/
theorem c2_interrupt_keeps_placeholder :
    (comlin_edit_feed (comlin_edit_start (comlin_new_state 80 false [])).2
        [CTRL_C]).status = COMLIN_INTERRUPTED ∧
    histLen (comlin_new_state 80 false []) = 0 ∧
    histLen (comlin_edit_feed (comlin_edit_start (comlin_new_state 80 false [])).2
        [CTRL_C]).st = 1 := by
  decide

/-- A character matching none of the `switch` cases falls through to
`comlin_edit_insert`. -/
theorem feedDispatch_default (l : ComlinState) (c : Char) (rest : List Char)
    (h1 : ¬(c = '\n' ∨ c = ENTER)) (h2 : c ≠ CTRL_C)
    (h3 : ¬(c = BACKSPACE ∨ c = CTRL_H)) (h4 : c ≠ CTRL_D) (h5 : c ≠ CTRL_T)
    (h6 : c ≠ CTRL_B) (h7 : c ≠ CTRL_F) (h8 : c ≠ CTRL_P) (h9 : c ≠ CTRL_N)
    (h10 : c ≠ ESC) (h11 : c ≠ CTRL_U) (h12 : c ≠ CTRL_K) (h13 : c ≠ CTRL_A)
    (h14 : c ≠ CTRL_E) (h15 : c ≠ CTRL_L) (h16 : c ≠ CTRL_W) :
    feedDispatch l c rest =
      ⟨(comlin_edit_insert l c).1, (comlin_edit_insert l c).2, rest, 0⟩ := by
  simp [feedDispatch, h1, h2, h3, h4, h5, h6, h7, h8, h9, h10, h11, h12, h13,
    h14, h15, h16]

/-- C9.  A Tab fed while a completion callback is registered but the buffer
is empty never reaches the callback: the feed result is the same for every
callback — one bell, completion mode off, and the Tab byte handed to normal
dispatch, which inserts it literally. -/
theorem c9_tab_on_empty_buffer (l : ComlinState) (cb : Str → List Str)
    (rest : List Char) (hdumb : l.dumb = false)
    (hcb : l.completion_callback = some cb) (hempty : l.buf.length = 0) :
    comlin_edit_feed l (TAB :: rest) =
      { status := (comlin_edit_insert { l with in_completion := false } TAB).1
        st := (comlin_edit_insert { l with in_completion := false } TAB).2
        rest := rest
        bells := 1 } ∧
    (comlin_edit_feed l (TAB :: rest)).status = COMLIN_READING ∧
    (comlin_edit_feed l (TAB :: rest)).st.in_completion = false := by
  have hcl : complete_line l TAB =
      { c := TAB, st := { l with in_completion := false }, bells := 1,
        displayed := l.buf.data.take l.buf.length } := by
    simp [complete_line, hempty]
  have hmain : comlin_edit_feed l (TAB :: rest) =
      { status := (comlin_edit_insert { l with in_completion := false } TAB).1
        st := (comlin_edit_insert { l with in_completion := false } TAB).2
        rest := rest
        bells := 1 } := by
    simp only [comlin_edit_feed, hdumb, Bool.false_eq_true, if_false, hcb,
      Option.isSome_some, and_true, or_true, if_true, hcl,
      show ¬(128 ≤ TAB.toNat) by decide, show ¬TAB = Char.ofNat 0 by decide,
      feedDispatch_default _ TAB rest (by decide) (by decide) (by decide)
        (by decide) (by decide) (by decide) (by decide) (by decide) (by decide)
        (by decide) (by decide) (by decide) (by decide) (by decide) (by decide)
        (by decide)]
  refine ⟨hmain, ?_, ?_⟩ <;> rw [hmain]
  · simp [comlin_edit_insert]
    split <;> rfl
  · simp only [comlin_edit_insert]
    split <;> rfl

/-- C9 witness: a fresh session with a concrete callback registered. -/
theorem c9_tab_on_empty_buffer_witness :
    (comlin_edit_feed
        { comlin_new_state 80 false [] with
          completion_callback := some fun _ => [['x']] } [TAB]).status =
      COMLIN_READING ∧
    (comlin_edit_feed
        { comlin_new_state 80 false [] with
          completion_callback := some fun _ => [['x']] } [TAB]).st.in_completion =
      false :=
  (c9_tab_on_empty_buffer
    { comlin_new_state 80 false [] with
      completion_callback := some fun _ => [['x']] }
    (fun _ => [['x']]) [] rfl rfl rfl).2

/-- `k` successive Tab presses routed through `complete_line`. -/
def tabIter (ls : ComlinState) : Nat → ComlinState
  | 0 => ls
  | k + 1 => (complete_line (tabIter ls k) TAB).st

/-- `complete_line` on the Tab that opens a round, by projections:
completion mode turns on with candidate 0 selected and displayed, no bell. -/
theorem complete_line_tab_start (s : ComlinState) (cb : Str → List Str)
    (cs : List Str) (hcb : s.completion_callback = some cb)
    (hbuf : s.buf.length ≠ 0) (hcs : cb (cstr s.buf.data) = cs)
    (hlen : cs.length ≠ 0) (hic : s.in_completion = false) :
    (complete_line s TAB).st.completion_idx = 0 ∧
    (complete_line s TAB).st.in_completion = true ∧
    (complete_line s TAB).st.buf = s.buf ∧
    (complete_line s TAB).st.completion_callback = s.completion_callback ∧
    (complete_line s TAB).bells = 0 ∧
    (complete_line s TAB).displayed = cs.getD 0 [] := by
  simp [complete_line, completionDisplay, hcb, hbuf, hcs, hlen, hic,
    Nat.pos_of_ne_zero hlen]

/-- `complete_line` on a Tab inside a round, by projections: the index
advances modulo `n + 1`; the bell rings exactly when it lands on `n`; the
display shows the selected candidate, or the buffer at the wrap step. -/
theorem complete_line_tab_active (s : ComlinState) (cb : Str → List Str)
    (cs : List Str) (hcb : s.completion_callback = some cb)
    (hbuf : s.buf.length ≠ 0) (hcs : cb (cstr s.buf.data) = cs)
    (hlen : cs.length ≠ 0) (hic : s.in_completion = true) :
    (complete_line s TAB).st.completion_idx =
      (s.completion_idx + 1) % (cs.length + 1) ∧
    (complete_line s TAB).st.in_completion = true ∧
    (complete_line s TAB).st.buf = s.buf ∧
    (complete_line s TAB).st.completion_callback = s.completion_callback ∧
    (complete_line s TAB).bells =
      (if (s.completion_idx + 1) % (cs.length + 1) = cs.length then 1 else 0) ∧
    (complete_line s TAB).displayed =
      (if (s.completion_idx + 1) % (cs.length + 1) < cs.length
       then cs.getD ((s.completion_idx + 1) % (cs.length + 1)) []
       else s.buf.data.take s.buf.length) := by
  refine ⟨?_, ?_, ?_, ?_, ?_, ?_⟩ <;>
    simp [complete_line, completionDisplay, hcb, hbuf, hcs, hlen, hic]

/-- Across a completion round driven by Tab presses the session keeps the
buffer and callback, stays in completion mode, and the candidate index after
the `k`-th Tab is `(k - 1) % (n + 1)`. -/
theorem tabIter_invariant (ls : ComlinState) (cb : Str → List Str)
    (cs : List Str) (n : Nat) (hcb : ls.completion_callback = some cb)
    (hbuf : ls.buf.length ≠ 0) (hcs : cb (cstr ls.buf.data) = cs)
    (hn : cs.length = n) (hpos : 1 ≤ n) (hic : ls.in_completion = false) :
    ∀ k, 1 ≤ k →
      (tabIter ls k).completion_idx = (k - 1) % (n + 1) ∧
      (tabIter ls k).in_completion = true ∧
      (tabIter ls k).buf = ls.buf ∧
      (tabIter ls k).completion_callback = ls.completion_callback := by
  have hlen : cs.length ≠ 0 := by omega
  intro k hk
  induction k with
  | zero => omega
  | succ k ih =>
    rcases Nat.eq_zero_or_pos k with rfl | hk1
    · obtain ⟨p1, p2, p3, p4, -, -⟩ :=
        complete_line_tab_start ls cb cs hcb hbuf hcs hlen hic
      refine ⟨?_, p2, p3, p4⟩
      show (complete_line ls TAB).st.completion_idx = (1 - 1) % (n + 1)
      rw [p1]
      simp
    · obtain ⟨hidx, hicK, hbufK, hcbK⟩ := ih hk1
      have hbufK' : (tabIter ls k).buf.length ≠ 0 := by rw [hbufK]; exact hbuf
      have hcbK' : (tabIter ls k).completion_callback = some cb := by
        rw [hcbK]; exact hcb
      have hcsK : cb (cstr (tabIter ls k).buf.data) = cs := by rw [hbufK]; exact hcs
      obtain ⟨p1, p2, p3, p4, -, -⟩ :=
        complete_line_tab_active _ cb cs hcbK' hbufK' hcsK hlen hicK
      refine ⟨?_, p2, ?_, ?_⟩
      · show (complete_line (tabIter ls k) TAB).st.completion_idx =
          (k + 1 - 1) % (n + 1)
        rw [p1, hidx, hn, Nat.mod_add_mod]
        congr 1
        omega
      · show (complete_line (tabIter ls k) TAB).st.buf = ls.buf
        rw [p3, hbufK]
      · show (complete_line (tabIter ls k) TAB).st.completion_callback =
          ls.completion_callback
        rw [p4, hcbK]

/-- C5.  With a registered callback yielding `n ≥ 1` candidates for the
(nonempty) buffer, the `k`-th consecutive Tab (1 ≤ k ≤ n) displays candidate
`k - 1` without a bell, the `(n+1)`-th Tab reverts the display to the
original buffer and rings the bell, and the candidate index always advances
modulo `n + 1`. -/
theorem c5_completion_cycle (ls : ComlinState) (cb : Str → List Str)
    (cs : List Str) (n : Nat) (hcb : ls.completion_callback = some cb)
    (hbuf : ls.buf.length ≠ 0) (hcs : cb (cstr ls.buf.data) = cs)
    (hn : cs.length = n) (hpos : 1 ≤ n) (hic : ls.in_completion = false) :
    (∀ k, 1 ≤ k → k ≤ n →
      (complete_line (tabIter ls (k - 1)) TAB).displayed = cs.getD (k - 1) [] ∧
      (complete_line (tabIter ls (k - 1)) TAB).bells = 0) ∧
    ((complete_line (tabIter ls n) TAB).displayed =
        ls.buf.data.take ls.buf.length ∧
     (complete_line (tabIter ls n) TAB).bells = 1) ∧
    (∀ k, 1 ≤ k → (tabIter ls k).completion_idx = (k - 1) % (n + 1)) := by
  have hlen : cs.length ≠ 0 := by omega
  have hinv := tabIter_invariant ls cb cs n hcb hbuf hcs hn hpos hic
  refine ⟨?_, ?_, fun k hk => (hinv k hk).1⟩
  · intro k hk1 hkn
    rcases Nat.eq_zero_or_pos (k - 1) with h0 | hk2
    · have hk1' : k = 1 := by omega
      subst hk1'
      obtain ⟨-, -, -, -, p5, p6⟩ :=
        complete_line_tab_start ls cb cs hcb hbuf hcs hlen hic
      exact ⟨by simpa using p6, p5⟩
    · obtain ⟨hidx, hicK, hbufK, hcbK⟩ := hinv (k - 1) hk2
      have hbufK' : (tabIter ls (k - 1)).buf.length ≠ 0 := by rw [hbufK]; exact hbuf
      have hcbK' : (tabIter ls (k - 1)).completion_callback = some cb := by
        rw [hcbK]; exact hcb
      have hcsK : cb (cstr (tabIter ls (k - 1)).buf.data) = cs := by
        rw [hbufK]; exact hcs
      obtain ⟨-, -, -, -, p5, p6⟩ :=
        complete_line_tab_active _ cb cs hcbK' hbufK' hcsK hlen hicK
      have hidx2 : ((tabIter ls (k - 1)).completion_idx + 1) % (cs.length + 1) =
          k - 1 := by
        rw [hidx, hn, Nat.mod_add_mod,
          Nat.mod_eq_of_lt (show k - 1 - 1 + 1 < n + 1 by omega)]
        omega
      constructor
      · rw [p6, hidx2, if_pos (show k - 1 < cs.length by omega)]
      · rw [p5, hidx2, if_neg (show ¬k - 1 = cs.length by omega)]
  · obtain ⟨hidx, hicK, hbufK, hcbK⟩ := hinv n hpos
    have hbufK' : (tabIter ls n).buf.length ≠ 0 := by rw [hbufK]; exact hbuf
    have hcbK' : (tabIter ls n).completion_callback = some cb := by
      rw [hcbK]; exact hcb
    have hcsK : cb (cstr (tabIter ls n).buf.data) = cs := by rw [hbufK]; exact hcs
    obtain ⟨-, -, -, -, p5, p6⟩ :=
      complete_line_tab_active _ cb cs hcbK' hbufK' hcsK hlen hicK
    have hidx2 : ((tabIter ls n).completion_idx + 1) % (cs.length + 1) =
        cs.length := by
      rw [hidx, hn, Nat.mod_add_mod,
        Nat.mod_eq_of_lt (show n - 1 + 1 < n + 1 by omega)]
      omega
    constructor
    · rw [p6, hidx2, if_neg (lt_irrefl cs.length), hbufK]
    · rw [p5, hidx2, if_pos rfl]

/-- The spec's completion scenario: buffer "h", candidates "hello" and
"hello there". -/
def c5DemoCandidates : List Str :=
  [['h', 'e', 'l', 'l', 'o'], ['h', 'e', 'l', 'l', 'o', ' ', 't', 'h', 'e', 'r', 'e']]

def c5DemoCallback : Str → List Str :=
  fun s => if s = ['h'] then c5DemoCandidates else []

def c5DemoState : ComlinState :=
  { comlin_new_state 80 false [] with
    completion_callback := some c5DemoCallback
    buf := { data := 'h' :: List.replicate 79 nul, length := 1, size := 80 }
    pos := 1 }

/-- C5 witness: first Tab shows "hello", second "hello there", third beeps
and reverts to "h". -/
theorem c5_completion_cycle_witness :
    (complete_line (tabIter c5DemoState 0) TAB).displayed =
      ['h', 'e', 'l', 'l', 'o'] ∧
    (complete_line (tabIter c5DemoState 1) TAB).displayed =
      ['h', 'e', 'l', 'l', 'o', ' ', 't', 'h', 'e', 'r', 'e'] ∧
    (complete_line (tabIter c5DemoState 1) TAB).bells = 0 ∧
    (complete_line (tabIter c5DemoState 2) TAB).displayed = ['h'] ∧
    (complete_line (tabIter c5DemoState 2) TAB).bells = 1 := by
  have h := c5_completion_cycle c5DemoState c5DemoCallback c5DemoCandidates 2
    rfl (by decide) (by decide) rfl (by decide) rfl
  obtain ⟨hfirst, hwrap, -⟩ := h
  refine ⟨?_, ?_, ?_, ?_, ?_⟩
  · exact ((hfirst 1 (by decide) (by decide)).1).trans (by decide)
  · exact ((hfirst 2 (by decide) (by decide)).1).trans (by decide)
  · exact (hfirst 2 (by decide) (by decide)).2
  · exact hwrap.1.trans (by decide)
  · exact hwrap.2

/-! Multi-line refresh bookkeeping (`refresh_multi_line`).  Only the session
state effects are modelled — the escape sequences written to the terminal
carry no session state. -/

def REFRESH_CLEAN : Nat := 1
def REFRESH_WRITE : Nat := 2
def REFRESH_ALL : Nat := 3

/-- `refresh_multi_line`: computes the rows of the current prompt + buffer,
records them in `oldrows` (bumping by one when the cursor sits exactly on a
column boundary at the end of the buffer while writing), and records the
cursor position in `oldpos`. -/
def refresh_multi_line (l : ComlinState) (flags : Nat) : ComlinState :=
  let plen := l.prompt.length
  let rows := (plen + l.buf.length + l.cols - 1) / l.cols
  let l := { l with oldrows := rows }
  let l :=
    if flags &&& REFRESH_WRITE ≠ 0 then
      if l.pos ≠ 0 ∧ l.pos = l.buf.length ∧ (l.pos + plen) % l.cols = 0 then
        let rows := rows + 1
        if rows > l.oldrows then { l with oldrows := rows } else l
      else l
    else l
  { l with oldpos := l.pos }

/-- `(a + b - 1) / b` is the ceiling of the exact division `a / b`. -/
theorem div_round_up_eq_ceil (a b : Nat) (hb : 0 < b) :
    (a + b - 1) / b = ⌈(a : ℚ) / (b : ℚ)⌉₊ := by
  have hbq : (0 : ℚ) < (b : ℚ) := by exact_mod_cast hb
  apply eq_of_forall_ge_iff
  intro n
  rw [Nat.ceil_le, div_le_iff₀ hbq, Nat.div_le_iff_le_mul_add_pred hb]
  constructor
  · intro h
    have h2 : a ≤ b * n := by omega
    have h3 : (a : ℚ) ≤ ((b * n : ℕ) : ℚ) := by exact_mod_cast h2
    push_cast at h3
    linarith
  · intro h
    have h2 : (a : ℚ) ≤ ((b * n : ℕ) : ℚ) := by push_cast; linarith
    have h3 : a ≤ b * n := by exact_mod_cast h2
    omega

/-- C7 (amended).  For nonzero `columns`, a multi-line refresh computes
`rows = ceil((promptLen + bufferLength) / columns)`, records the new cursor
position, and records `rows` for the next erase step — except that when
writing with the cursor exactly at a column boundary at the end of the
buffer, the recorded row count is `rows + 1` (the emitted newline occupies
one more row). -/
theorem c7_multi_line_rows (l : ComlinState) (flags : Nat) (hcols : 0 < l.cols) :
    (refresh_multi_line l flags).oldpos = l.pos ∧
    (refresh_multi_line l flags).oldrows =
      (if flags &&& REFRESH_WRITE ≠ 0 ∧ l.pos ≠ 0 ∧ l.pos = l.buf.length ∧
          (l.pos + l.prompt.length) % l.cols = 0
       then ⌈((l.prompt.length + l.buf.length : Nat) : ℚ) / (l.cols : ℚ)⌉₊ + 1
       else ⌈((l.prompt.length + l.buf.length : Nat) : ℚ) / (l.cols : ℚ)⌉₊) := by
  rw [← div_round_up_eq_ceil _ _ hcols]
  by_cases hw : flags &&& REFRESH_WRITE ≠ 0
  · by_cases hc : l.pos ≠ 0 ∧ l.pos = l.buf.length ∧
        (l.pos + l.prompt.length) % l.cols = 0
    · simp only [refresh_multi_line]
      rw [if_pos hw, if_pos hc, if_pos (Nat.lt_succ_self _), if_pos ⟨hw, hc⟩]
      exact ⟨rfl, rfl⟩
    · simp only [refresh_multi_line]
      rw [if_pos hw, if_neg hc, if_neg fun h => hc h.2]
      exact ⟨rfl, rfl⟩
  · simp only [refresh_multi_line]
    rw [if_neg hw, if_neg fun h => hw h.1]
    exact ⟨rfl, rfl⟩

/-- C7 witness: a 4-column terminal, two-character prompt, two-character
buffer with the cursor at its end (the boundary case). -/
def mlBoundaryState : ComlinState :=
  { comlin_new_state 4 false ['a', 'b'] with
    buf := { data := ['c', 'd', nul, nul], length := 2, size := 4 }
    pos := 2 }

theorem c7_multi_line_rows_witness :
    (refresh_multi_line mlBoundaryState REFRESH_ALL).oldpos = mlBoundaryState.pos ∧
    (refresh_multi_line mlBoundaryState REFRESH_ALL).oldrows =
      (if REFRESH_ALL &&& REFRESH_WRITE ≠ 0 ∧ mlBoundaryState.pos ≠ 0 ∧
          mlBoundaryState.pos = mlBoundaryState.buf.length ∧
          (mlBoundaryState.pos + mlBoundaryState.prompt.length) %
            mlBoundaryState.cols = 0
       then ⌈((mlBoundaryState.prompt.length + mlBoundaryState.buf.length : Nat) : ℚ) /
              (mlBoundaryState.cols : ℚ)⌉₊ + 1
       else ⌈((mlBoundaryState.prompt.length + mlBoundaryState.buf.length : Nat) : ℚ) /
              (mlBoundaryState.cols : ℚ)⌉₊) :=
  c7_multi_line_rows mlBoundaryState REFRESH_ALL (by decide)

/-- C7 counterexample.  In the boundary case the recorded row count is 2,
while `ceil((promptLen + bufferLength) / columns)` is `ceil(4/4) = 1`: the
code records one more row than the claim states. -/
theorem c7_recorded_rows_exceed_ceil :
    (refresh_multi_line mlBoundaryState REFRESH_ALL).oldrows = 2 ∧
    ⌈((mlBoundaryState.prompt.length + mlBoundaryState.buf.length : Nat) : ℚ) /
        (mlBoundaryState.cols : ℚ)⌉₊ = 1 ∧
    (refresh_multi_line mlBoundaryState REFRESH_ALL).oldrows ≠
      ⌈((mlBoundaryState.prompt.length + mlBoundaryState.buf.length : Nat) : ℚ) /
          (mlBoundaryState.cols : ℚ)⌉₊ := by
  have hceil : ⌈((mlBoundaryState.prompt.length + mlBoundaryState.buf.length : Nat) : ℚ) /
      (mlBoundaryState.cols : ℚ)⌉₊ = 1 := by
    rw [← div_round_up_eq_ceil _ _ (by decide)]
    decide
  refine ⟨by decide, hceil, ?_⟩
  rw [hceil]
  decide

/-- Modelled from the spec: "loop `feed()` until it returns anything other
than 'continue editing'" — the feed loop written from the spec's words, to
be compared with the loop inside `comlin_read_line`. -/
def specFeedUntilDone : Nat → ComlinState → List Char → FeedResult
  | 0, l, input => comlin_edit_feed l input
  | fuel + 1, l, input =>
    let r := comlin_edit_feed l input
    if r.status ≠ COMLIN_READING then r
    else
      let r2 := specFeedUntilDone fuel r.st r.rest
      { r2 with bells := r.bells + r2.bells }

/-- Modelled from the spec: "`readLine(prompt)` = `start(prompt)`; loop
`feed()` until it returns anything other than 'continue editing'; `stop()`;
return the terminal result or the first error encountered (start/feed errors
take priority over stop errors)." -/
def spec_read_line (state : ComlinState) (prompt : Str) (input : List Char) :
    ComlinStatus × ComlinState × List Char :=
  let state := { state with prompt := prompt, plen := prompt.length }
  let (s0, st) := comlin_edit_start state
  if s0 ≠ COMLIN_SUCCESS then (s0, st, input)
  else
    let r := specFeedUntilDone input.length st input
    let (s1, st') := comlin_edit_stop r.st
    if r.status ≠ COMLIN_SUCCESS then (r.status, st', r.rest)
    else (s1, st', r.rest)

/-- The code's feed loop and the spec's feed loop agree. -/
theorem feedWhile_eq_specFeedUntilDone (fuel : Nat) :
    ∀ (l : ComlinState) (input : List Char),
      feedWhile fuel l input = specFeedUntilDone fuel l input := by
  induction fuel with
  | zero => intro l input; rfl
  | succ fuel ih =>
    intro l input
    simp only [feedWhile, specFeedUntilDone, ih]
    by_cases h : (comlin_edit_feed l input).status = COMLIN_READING <;> simp [h]

/-- C8.  `comlin_read_line prompt` is `comlin_edit_start` with that prompt,
then `comlin_edit_feed` until a status other than continue-editing, then
`comlin_edit_stop`, returning the feed loop's terminal result or the first
error, start/feed errors before stop errors. -/
theorem c8_read_line_refines_spec (state : ComlinState) (prompt : Str)
    (input : List Char) :
    comlin_read_line state prompt input = spec_read_line state prompt input := by
  simp only [comlin_read_line, spec_read_line,
    feedWhile_eq_specFeedUntilDone]
  by_cases h0 : (comlin_edit_start
      { state with prompt := prompt, plen := prompt.length }).1 = COMLIN_SUCCESS
  · simp only [h0, if_true, ite_not]
    by_cases h1 : (specFeedUntilDone input.length
        (comlin_edit_start { state with prompt := prompt, plen := prompt.length }).2
        input).status = COMLIN_SUCCESS <;> simp [h1]
  · simp [h0]

/-- C4 witness: the no-op case at capacity 0 and a concrete append. -/
theorem c4_history_add_witness :
    (comlin_history_add (freshSession 0) ['x']).2 = freshSession 0 ∧
    histList (comlin_history_add
        { freshSession 3 with history := some [['a']] } ['b']).2 =
      (if histLen { freshSession 3 with history := some [['a']] } =
          ({ freshSession 3 with history := some [['a']] } : ComlinState).history_max_len
       then (histList { freshSession 3 with history := some [['a']] }).drop 1
       else histList { freshSession 3 with history := some [['a']] }) ++ [['b']] :=
  ⟨(c4_history_add (freshSession 0) ['x']).1 rfl,
   ((c4_history_add { freshSession 3 with history := some [['a']] } ['b']).2.2.1
     (by decide) (by decide)).1⟩

/-- C3 witness: two clean entries round-trip through save and load. -/
theorem c3_save_load_roundtrip_witness :
    histList (comlin_history_load (freshSession 100)
        (comlin_history_save { freshSession 100 with history := some [['a'], ['b']] })) =
      histList { freshSession 100 with history := some [['a'], ['b']] } :=
  c3_save_load_roundtrip { freshSession 100 with history := some [['a'], ['b']] }
    (freshSession 100) rfl (by decide) (by decide)
    (by simp [histList, List.chain'_cons])

end Comlin
